import Mathlib

/-!
Verification development for the gcli2apigo gateway: a shallow embedding of
the request-dispatch and credential-management subsystem (dispatcher retry
loop, rate-limited credential selection, usage ledger, protocol transformers,
and stream assembly) together with theorems about the embedded code.

Strings from the Go source are modelled as `List Char`; `time.Time` values are
modelled as integer seconds (with the Go zero value of `time.Time` modelled as
`0`); Go `int` values are modelled as `Int`.
-/

namespace Gcli

/-! ## Usage ledger (`usage` package)

Embeds `ProjectUsage`, `UsageTracker.IncrementUsage`, `SetErrorCode`,
`GetLastErrorCode`, `GetUsage`, `shouldReset`, `getLastResetTime`,
`getNextResetTime` and `IsProModel`.  The tracker's persistent-storage and
background-goroutine parts (`Save`, `Load`, `autoResetLoop`, `autoSaveLoop`)
are side effects outside the lazy-reset logic under study and are not
modelled; `now` is passed explicitly where Go calls `time.Now()`. -/

/-- `ResetHour = 15` from the source. -/
def resetHour : Int := 15

/-- `ResetMinute = 0` from the source. -/
def resetMinute : Int := 0

/-- `ResetTimezone = 8*60*60` (GMT+8 in seconds) from the source. -/
def resetTimezone : Int := 8 * 60 * 60

/-- Seconds in a day; Go `time.Date` arithmetic in a fixed zone has no DST. -/
def secondsPerDay : Int := 86400

/-- `getLastResetTime`: the most recent reset instant (today or yesterday at
15:00 GMT+8), for a current unix time `now`.  Mirrors the Go computation:
build today's 15:00 in the fixed zone and subtract a day if `now` is before
it. -/
def getLastResetTime (now : Int) : Int :=
  let localNow := now + resetTimezone
  let localMidnight := localNow - localNow.emod secondsPerDay
  let resetLocal := localMidnight + resetHour * 3600 + resetMinute * 60
  let adjusted := if localNow < resetLocal then resetLocal - secondsPerDay else resetLocal
  adjusted - resetTimezone

/-- `getNextResetTime`: the next reset instant (today or tomorrow at 15:00
GMT+8).  Go adds a day when `now.After(resetTime) || now.Equal(resetTime)`. -/
def getNextResetTime (now : Int) : Int :=
  let localNow := now + resetTimezone
  let localMidnight := localNow - localNow.emod secondsPerDay
  let resetLocal := localMidnight + resetHour * 3600 + resetMinute * 60
  let adjusted := if resetLocal ≤ localNow then resetLocal + secondsPerDay else resetLocal
  adjusted - resetTimezone

/-- `shouldReset`: a record needs a lazy reset when its last-reset time is the
zero time or lies before the most recent reset boundary. -/
def shouldReset (lastResetTime now : Int) : Bool :=
  lastResetTime == 0 || lastResetTime < getLastResetTime now

/-- `ProjectUsage` from the source (JSON persistence tags dropped). -/
structure ProjectUsage where
  projectID : List Char
  proModelCount : Int := 0
  overallCount : Int := 0
  lastResetTime : Int := 0
  lastUpdateTime : Int := 0
  lastErrorCode : Int := 0
  deriving Repr, DecidableEq

/-- The tracker's `usageMap`, keyed by project ID. -/
def UsageMap : Type := List Char → Option ProjectUsage

/-- Store a record under a project ID (Go map assignment). -/
def UsageMap.set (m : UsageMap) (projectID : List Char) (u : ProjectUsage) : UsageMap :=
  fun k => if k = projectID then some u else m k

/-- The record a tracker write starts from: the stored record, or — exactly
as in `IncrementUsage` / `SetErrorCode` when the key is missing — a fresh one
whose last reset is initialised to the previous boundary
(`getNextResetTime(now) - 24h`). -/
def incBase (m : UsageMap) (projectID : List Char) (now : Int) : ProjectUsage :=
  match m projectID with
  | some u => u
  | none => { projectID := projectID, lastResetTime := getNextResetTime now - 24 * 3600 }

/-- The lazy-reset step shared by the tracker's write path: zero the counters
and stamp the boundary when `shouldReset` holds. -/
def incReset (u : ProjectUsage) (now : Int) : ProjectUsage :=
  if shouldReset u.lastResetTime now then
    { u with proModelCount := 0, overallCount := 0, lastResetTime := getLastResetTime now }
  else u

/-- The record stored by `IncrementUsage`: lazy reset, bump the counters,
stamp the update time and clear the error code. -/
def incRecord (m : UsageMap) (projectID : List Char) (isProModel : Bool)
    (now : Int) : ProjectUsage :=
  let usage := incReset (incBase m projectID now) now
  { usage with
    overallCount := usage.overallCount + 1
    proModelCount := if isProModel then usage.proModelCount + 1 else usage.proModelCount
    lastUpdateTime := now
    lastErrorCode := 0 }

/-- `UsageTracker.IncrementUsage`. -/
def IncrementUsage (m : UsageMap) (projectID : List Char) (isProModel : Bool)
    (now : Int) : UsageMap :=
  m.set projectID (incRecord m projectID isProModel now)

/-- `UsageTracker.SetErrorCode`: create the record if missing, store the code
and stamp the update time. -/
def SetErrorCode (m : UsageMap) (projectID : List Char) (errorCode : Int)
    (now : Int) : UsageMap :=
  m.set projectID
    { incBase m projectID now with lastErrorCode := errorCode, lastUpdateTime := now }

/-- `UsageTracker.GetLastErrorCode`: 0 when no record exists. -/
def GetLastErrorCode (m : UsageMap) (projectID : List Char) : Int :=
  match m projectID with
  | none => 0
  | some u => u.lastErrorCode

/-- `UsageTracker.GetUsage`: a missing record reads as a fresh one at the last
boundary; a stale record reads as a fresh one at `next - 24h`; otherwise a
copy is returned.  The Go copy literal omits `LastErrorCode`, so the copy's
error-code field is the zero value (the `:= 0` structure default). -/
def GetUsage (m : UsageMap) (projectID : List Char) (now : Int) : ProjectUsage :=
  match m projectID with
  | none => { projectID := projectID, lastResetTime := getLastResetTime now }
  | some usage =>
    if shouldReset usage.lastResetTime now then
      { projectID := projectID, lastResetTime := getNextResetTime now - 24 * 3600 }
    else
      { projectID := usage.projectID
        proModelCount := usage.proModelCount
        overallCount := usage.overallCount
        lastResetTime := usage.lastResetTime
        lastUpdateTime := usage.lastUpdateTime }

/-- `IsProModel` from the source, byte-for-byte: `len(m) >= 3 &&
(m[len-3:] == "pro" || len(m) >= 4 && m[len-4:len-1] == "pro-")`.  The second
disjunct compares a 3-byte slice against the 4-byte literal `"pro-"`. -/
def IsProModel (modelName : List Char) : Bool :=
  let n := modelName.length
  decide (3 ≤ n) &&
    (decide (modelName.drop (n - 3) = "pro".toList) ||
      (decide (4 ≤ n) && decide ((modelName.drop (n - 4)).take 3 = "pro-".toList)))

/-- The two boundary computations are one day apart. -/
theorem getNextResetTime_sub_day (now : Int) :
    getNextResetTime now - 24 * 3600 = getLastResetTime now := by
  unfold getNextResetTime getLastResetTime
  simp only [resetHour, resetMinute, resetTimezone, secondsPerDay]
  split <;> split <;> omega

/-- Reading a stored map key gives back the stored record. -/
theorem UsageMap.set_self (m : UsageMap) (q : List Char) (u : ProjectUsage) :
    (m.set q u) q = some u := by
  simp [UsageMap.set]

/-- C10: the record returned by `GetUsage` always carries a zero
`LastErrorCode` — even immediately after `SetErrorCode` stored a nonzero code
for the same project — while the stored code is observable through
`GetLastErrorCode`. -/
theorem getUsage_lastErrorCode_zero (m : UsageMap) (pid : List Char)
    (now code now' : Int) :
    (GetUsage (SetErrorCode m pid code now') pid now).lastErrorCode = 0 ∧
    (GetUsage m pid now).lastErrorCode = 0 ∧
    GetLastErrorCode (SetErrorCode m pid code now') pid = code := by
  refine ⟨?_, ?_, ?_⟩
  · unfold GetUsage
    cases h : SetErrorCode m pid code now' pid with
    | none => rfl
    | some u => simp only; split <;> rfl
  · unfold GetUsage
    cases h : m pid with
    | none => rfl
    | some u => simp only; split <;> rfl
  · unfold GetLastErrorCode SetErrorCode
    rw [UsageMap.set_self]

/-- C9: an increment just before the daily reset boundary followed by reads
just after it observes exactly one reset: every read after the boundary
returns zeroed counters stamped with the most recent boundary, and the first
increment after the boundary produces an overall count of exactly 1 with the
record's last-reset time set to that boundary. -/
theorem usage_lazy_reset_once
    (m : UsageMap) (pid : List Char) (isPro isPro₂ : Bool) (now₁ now₂ : Int)
    (h₀ : getLastResetTime now₁ ≠ 0)
    (hcross : getLastResetTime now₁ < getLastResetTime now₂)
    (hprev : ∀ u, m pid = some u → u.lastResetTime < getLastResetTime now₂) :
    (∀ t, getLastResetTime t = getLastResetTime now₂ →
        (GetUsage (IncrementUsage m pid isPro now₁) pid t).overallCount = 0 ∧
        (GetUsage (IncrementUsage m pid isPro now₁) pid t).proModelCount = 0 ∧
        (GetUsage (IncrementUsage m pid isPro now₁) pid t).lastResetTime =
          getLastResetTime now₂) ∧
    (∀ u, IncrementUsage (IncrementUsage m pid isPro now₁) pid isPro₂ now₂ pid = some u →
        u.overallCount = 1 ∧ u.lastResetTime = getLastResetTime now₂) := by
  set v := incRecord m pid isPro now₁ with hvdef
  have hv : IncrementUsage m pid isPro now₁ pid = some v := UsageMap.set_self _ _ _
  have hvlrt : v.lastResetTime = (incReset (incBase m pid now₁) now₁).lastResetTime := rfl
  have hmain : v.lastResetTime ≠ 0 ∧ v.lastResetTime < getLastResetTime now₂ := by
    rw [hvlrt]
    unfold incReset
    split
    · exact ⟨h₀, hcross⟩
    · rename_i hns
      simp only [shouldReset, Bool.or_eq_true, beq_iff_eq, decide_eq_true_eq,
        not_or, not_lt] at hns
      refine ⟨hns.1, ?_⟩
      unfold incBase
      cases h : m pid with
      | none =>
        simp only
        rw [getNextResetTime_sub_day]
        exact hcross
      | some u => exact hprev u h
  have hsr : ∀ t, getLastResetTime t = getLastResetTime now₂ →
      shouldReset v.lastResetTime t = true := by
    intro t ht
    simp only [shouldReset, Bool.or_eq_true, beq_iff_eq, decide_eq_true_eq, ht]
    exact Or.inr hmain.2
  constructor
  · intro t ht
    have hread : GetUsage (IncrementUsage m pid isPro now₁) pid t =
        { projectID := pid, lastResetTime := getNextResetTime t - 24 * 3600 } := by
      unfold GetUsage
      rw [hv]
      simp [hsr t ht]
    rw [hread]
    refine ⟨rfl, rfl, ?_⟩
    show getNextResetTime t - 24 * 3600 = getLastResetTime now₂
    rw [getNextResetTime_sub_day, ht]
  · intro u hu
    have hbase : incBase (IncrementUsage m pid isPro now₁) pid now₂ = v := by
      unfold incBase
      rw [hv]
    have hrecv : IncrementUsage (IncrementUsage m pid isPro now₁) pid isPro₂ now₂ pid
        = some (incRecord (IncrementUsage m pid isPro now₁) pid isPro₂ now₂) :=
      UsageMap.set_self _ _ _
    rw [hrecv] at hu
    injection hu with hu
    subst hu
    unfold incRecord
    rw [hbase]
    unfold incReset
    rw [hsr now₂ rfl]
    simp

/-- Witness for `usage_lazy_reset_once`: the boundary at unix time 111600
(15:00 GMT+8) with an increment one second before it and a read one second
after it. -/
theorem usage_lazy_reset_once_witness :
    (GetUsage (IncrementUsage (fun _ => none) ['p'] true 111599) ['p'] 111601).overallCount
      = 0 :=
  ((usage_lazy_reset_once (fun _ => none) ['p'] true false 111599 111601
      (by decide) (by decide) (fun u hu => Option.noConfusion hu)).1 111601 rfl).1

/-- C8: `IsProModel` is not a substring match on "pro": it only recognises
names that end in "pro" (the second disjunct compares a 3-byte slice to the
4-byte literal `"pro-"` and can never hold), so
`gemini-2.5-pro-preview-03-25` — which contains "pro" and is named in the
function's own doc comment as covered — is classified as non-pro. -/
theorem isProModel_not_contains_pro :
    IsProModel "gemini-2.5-pro-preview-03-25".toList = false ∧
    "pro".toList <:+: "gemini-2.5-pro-preview-03-25".toList ∧
    IsProModel "gemini-2.5-pro".toList = true := by decide

/-! ## Dispatcher (`client.SendGeminiRequest` retry loop)

Embeds the credential-rotation loop of `SendGeminiRequest`: per-iteration
credential selection, the tried-set check, the refresh / onboarding /
upstream-send phases (abstracted to their control-flow outcomes, which is all
the loop inspects), the 429 rotation and the retry-limit checks.  Network and
logging side effects are not modelled; the outcome of each external call is
supplied by a `DispatchEnv`. -/

/-- The fields of a `CredentialEntry`/token that the dispatch loop reads.
`expired` stands for `creds.Expiry.Before(time.Now())` at selection time. -/
structure Cred where
  projectID : List Char
  accessToken : List Char
  refreshToken : List Char
  expired : Bool
  deriving Repr, DecidableEq

/-- Outcome of `auth.OnboardUser` as the dispatcher distinguishes it: success,
an error whose message contains "401", or any other error. -/
inductive OnboardOutcome
  | ok
  | err401
  | errOther
  deriving Repr, DecidableEq

/-- The deterministic abstraction of everything outside the loop: the pool and
ban list, the credential returned by `auth.GetCredentialForRequest` at the
`i`-th selection call, the outcomes of the refresh / onboarding calls, the
HTTP status of the upstream POST per project, and the configured
`MAX_RETRY_ATTEMPTS` value. -/
structure DispatchEnv where
  pool : List Cred
  banned : List Char → Bool
  select : Nat → Option Cred
  refreshOk : List Char → Bool
  refreshOk401 : List Char → Bool
  onboard : List Char → OnboardOutcome
  onboardRetryOk : List Char → Bool
  sendStatus : List Char → Int
  configuredMaxRetries : Int

/-- Modelled from the spec: `CredentialPool.GetAvailableCredentialCount` is
not among the sources here — only its caller `auth.GetCredentialPoolSize`
is, whose doc comment states it "returns the number of available (unbanned)
credentials in the pool". -/
def GetCredentialPoolSize (env : DispatchEnv) : Nat :=
  (env.pool.filter (fun c => !env.banned c.projectID)).length

/-- How one marked attempt ends: an upstream call answered with a status the
loop returns (`response`), an upstream 429 triggering rotation
(`rateLimited`), or the credential abandoned before a send (`abandon`,
Go `continue`). -/
inductive AttemptOutcome
  | response (status : Int)
  | rateLimited
  | abandon
  deriving Repr, DecidableEq

/-- The upstream POST: 429 rotates, anything else is returned. -/
def sendPhase (env : DispatchEnv) (pid : List Char) : AttemptOutcome :=
  if env.sendStatus pid == 429 then .rateLimited else .response (env.sendStatus pid)

/-- Step 3 of the loop body: onboarding; a 401 with a refresh token forces one
refresh plus one onboarding retry, any other failure abandons the
credential. -/
def onboardPhase (env : DispatchEnv) (cred : Cred) : AttemptOutcome :=
  match env.onboard cred.projectID with
  | .ok => sendPhase env cred.projectID
  | .err401 =>
    if cred.refreshToken ≠ [] then
      if env.refreshOk401 cred.projectID then
        if env.onboardRetryOk cred.projectID then sendPhase env cred.projectID
        else .abandon
      else .abandon
    else .abandon
  | .errOther => .abandon

/-- Steps 2–4 of the loop body for a freshly marked credential: refresh if the
token is expired or missing (a failed refresh abandons the credential only
when there is no usable access token), then onboard, then send. -/
def attemptCred (env : DispatchEnv) (cred : Cred) : AttemptOutcome :=
  let needsRefresh := cred.expired || cred.accessToken == []
  if needsRefresh && !(cred.refreshToken == []) then
    if env.refreshOk cred.projectID then onboardPhase env cred
    else if cred.accessToken == [] then .abandon
    else onboardPhase env cred
  else if cred.accessToken == [] then .abandon
  else onboardPhase env cred

/-- `len(triedCredentials) >= maxRetries || len(triedCredentials) >= poolSize`. -/
def limitReached (env : DispatchEnv) (maxRetries : Int) (tried : Nat) : Bool :=
  maxRetries ≤ (tried : Int) || GetCredentialPoolSize env ≤ tried

/-- What `SendGeminiRequest` returns. -/
inductive DispatchResult
  | selectionFailed
  | rateLimitExceeded (attempts : Nat)
  | response (projectID : List Char) (status : Int)
  deriving Repr, DecidableEq

/-- The retry loop.  `tried` is the tried-set (distinct by construction, so
its length is the Go map's size), `i` counts selection calls, and the second
component of the result is the list of credentials marked as tried, newest
first.  `none` in the first component means the fuel ran out (the Go loop can
spin on an unlucky selector). -/
def dispatchLoop (env : DispatchEnv) (maxRetries : Int) :
    Nat → List (List Char) → Nat → Option DispatchResult × List (List Char)
  | 0, _, _ => (none, [])
  | fuel + 1, tried, i =>
    match env.select i with
    | none => (some .selectionFailed, [])
    | some cred =>
      if cred.projectID ∈ tried then
        if limitReached env maxRetries tried.length then
          (some (.rateLimitExceeded tried.length), [])
        else
          dispatchLoop env maxRetries fuel tried (i + 1)
      else
        let tried' := cred.projectID :: tried
        match attemptCred env cred with
        | .response s => (some (.response cred.projectID s), [cred.projectID])
        | .abandon =>
          let r := dispatchLoop env maxRetries fuel tried' (i + 1)
          (r.1, cred.projectID :: r.2)
        | .rateLimited =>
          if limitReached env maxRetries tried'.length then
            (some (.rateLimitExceeded tried'.length), [cred.projectID])
          else
            let r := dispatchLoop env maxRetries fuel tried' (i + 1)
            (r.1, cred.projectID :: r.2)

/-- `maxRetries := config.GetMaxRetryAttempts(); if maxRetries <= 0
{ maxRetries = 5 }`. -/
def effectiveMaxRetries (configured : Int) : Int :=
  if configured ≤ 0 then 5 else configured

/-- `SendGeminiRequest`, from the initial empty tried-set. -/
def SendGeminiRequest (env : DispatchEnv) (fuel : Nat) :
    Option DispatchResult × List (List Char) :=
  dispatchLoop env (effectiveMaxRetries env.configuredMaxRetries) fuel [] 0

/-- Every credential the loop marks as tried was not in the tried-set before,
and the marked credentials are pairwise distinct. -/
theorem dispatchLoop_marked_fresh (env : DispatchEnv) (m : Int) :
    ∀ fuel tried i,
      (∀ p ∈ (dispatchLoop env m fuel tried i).2, p ∉ tried) ∧
      (dispatchLoop env m fuel tried i).2.Nodup := by
  intro fuel
  induction fuel with
  | zero => intro tried i; simp [dispatchLoop]
  | succ f ih =>
    intro tried i
    unfold dispatchLoop
    cases hsel : env.select i with
    | none => simp
    | some cred =>
      simp only
      by_cases hmem : cred.projectID ∈ tried
      · rw [if_pos hmem]
        by_cases hlim : limitReached env m tried.length = true
        · rw [if_pos hlim]; simp
        · rw [if_neg hlim]; exact ih tried (i + 1)
      · rw [if_neg hmem]
        cases hatt : attemptCred env cred with
        | response s => simpa using hmem
        | abandon =>
          simp only
          obtain ⟨hfresh, hnd⟩ := ih (cred.projectID :: tried) (i + 1)
          constructor
          · intro p hp
            rcases List.mem_cons.mp hp with hp | hp
            · exact hp ▸ hmem
            · exact fun hm => hfresh p hp (List.mem_cons_of_mem _ hm)
          · refine List.nodup_cons.mpr ⟨?_, hnd⟩
            intro hc
            exact hfresh _ hc (List.mem_cons_self _ _)
        | rateLimited =>
          simp only
          by_cases hlim : limitReached env m (cred.projectID :: tried).length = true
          · rw [if_pos hlim]; simpa using hmem
          · rw [if_neg hlim]
            simp only
            obtain ⟨hfresh, hnd⟩ := ih (cred.projectID :: tried) (i + 1)
            constructor
            · intro p hp
              rcases List.mem_cons.mp hp with hp | hp
              · exact hp ▸ hmem
              · exact fun hm => hfresh p hp (List.mem_cons_of_mem _ hm)
            · refine List.nodup_cons.mpr ⟨?_, hnd⟩
              intro hc
              exact hfresh _ hc (List.mem_cons_self _ _)

/-- C2: within one execution of `SendGeminiRequest` no credential identifier
is attempted more than once — the list of project identifiers marked as tried
(each marking is what admits the credential to its refresh/onboard/send
upstream calls) has no duplicates; a credential returned again by selection
hits the tried-set check and is skipped, not re-attempted. -/
theorem sendGeminiRequest_no_credential_twice (env : DispatchEnv) (fuel : Nat) :
    (SendGeminiRequest env fuel).2.Nodup :=
  (dispatchLoop_marked_fresh env (effectiveMaxRetries env.configuredMaxRetries)
    fuel [] 0).2

/-- The environment of the rate-limit-exhaustion scenario: selection always
yields an unbanned pool credential, and every unbanned credential has a
usable access token, onboards successfully, and answers the upstream POST
with 429. -/
def allRateLimited (env : DispatchEnv) : Prop :=
  (∀ i, ∃ c, env.select i = some c ∧ c ∈ env.pool ∧ env.banned c.projectID = false) ∧
  (∀ c ∈ env.pool, env.banned c.projectID = false →
    c.accessToken ≠ [] ∧ c.expired = false ∧ env.onboard c.projectID = .ok ∧
    env.sendStatus c.projectID = 429)

/-- A credential with a usable token that onboards fine and gets a 429 ends
its attempt in rotation. -/
theorem attemptCred_rateLimited (env : DispatchEnv) (cred : Cred)
    (ha : cred.accessToken ≠ []) (he : cred.expired = false)
    (ho : env.onboard cred.projectID = .ok)
    (hs : env.sendStatus cred.projectID = 429) :
    attemptCred env cred = .rateLimited := by
  unfold attemptCred onboardPhase sendPhase
  simp [ha, he, ho, hs]

/-- Main exhaustion lemma: starting below both limits, if the loop
terminates under `allRateLimited` then it fails with `rateLimitExceeded` at
exactly `min maxRetries poolSize` tried credentials, marking the difference
to the current tried-set on the way. -/
theorem dispatchLoop_all429 (env : DispatchEnv) (m : Int)
    (hall : allRateLimited env) :
    ∀ fuel tried i r,
      (tried.length : Int) < m → tried.length < GetCredentialPoolSize env →
      (dispatchLoop env m fuel tried i).1 = some r →
      r = .rateLimitExceeded (min m.toNat (GetCredentialPoolSize env)) ∧
      (dispatchLoop env m fuel tried i).2.length + tried.length
        = min m.toNat (GetCredentialPoolSize env) := by
  intro fuel
  induction fuel with
  | zero => intro tried i r _ _ hr; exact absurd hr (by simp [dispatchLoop])
  | succ f ih =>
    intro tried i r hm hN hr
    obtain ⟨cred, hsel, hpool, hban⟩ := hall.1 i
    obtain ⟨ha, he, ho, hs⟩ := hall.2 cred hpool hban
    have hatt := attemptCred_rateLimited env cred ha he ho hs
    rw [dispatchLoop, hsel] at hr ⊢
    simp only at hr ⊢
    have hlimF : limitReached env m tried.length = false := by
      simp only [limitReached, Bool.or_eq_false_iff, decide_eq_false_iff_not, not_le]
      omega
    by_cases hmem : cred.projectID ∈ tried
    · rw [if_pos hmem, hlimF] at hr ⊢
      simp only [Bool.false_eq_true, if_false] at hr ⊢
      exact ih tried (i + 1) r hm hN hr
    · rw [if_neg hmem, hatt] at hr ⊢
      simp only at hr ⊢
      by_cases hlim : limitReached env m (cred.projectID :: tried).length = true
      · rw [if_pos hlim] at hr ⊢
        simp only [limitReached, List.length_cons, Bool.or_eq_true,
          decide_eq_true_eq] at hlim
        simp only [Option.some_inj] at hr
        subst hr
        constructor
        · congr 1
          simp only [List.length_cons]
          omega
        · simp only [List.length_singleton, List.length_cons, List.length_nil]
          omega
      · rw [if_neg hlim] at hr ⊢
        simp only [limitReached, List.length_cons, Bool.or_eq_true,
          decide_eq_true_eq, not_or, not_le] at hlim
        simp only at hr ⊢
        obtain ⟨hr1, hr2⟩ := ih (cred.projectID :: tried) (i + 1) r
          (by simp only [List.length_cons]; omega)
          (by simp only [List.length_cons]; omega) hr
        refine ⟨hr1, ?_⟩
        simp only [List.length_cons] at hr2 ⊢
        omega

/-- C1 (amended): when every unbanned credential's upstream call returns 429
and at least one unbanned credential exists, a terminating dispatch fails
with the rate-limit-exceeded error after exactly
`min(maxRetries, N)` attempts, where `maxRetries` is the configured value
when positive and otherwise 5 (the loop's substitute), and `N` is the
unbanned pool size. -/
theorem sendGeminiRequest_all429_min_attempts (env : DispatchEnv) (fuel : Nat)
    (r : DispatchResult) (hall : allRateLimited env)
    (hN : 1 ≤ GetCredentialPoolSize env)
    (hr : (SendGeminiRequest env fuel).1 = some r) :
    r = .rateLimitExceeded
        (min (effectiveMaxRetries env.configuredMaxRetries).toNat
          (GetCredentialPoolSize env)) ∧
    (SendGeminiRequest env fuel).2.length =
      min (effectiveMaxRetries env.configuredMaxRetries).toNat
        (GetCredentialPoolSize env) := by
  have hm : (1 : Int) ≤ effectiveMaxRetries env.configuredMaxRetries := by
    unfold effectiveMaxRetries; split <;> omega
  have h := dispatchLoop_all429 env (effectiveMaxRetries env.configuredMaxRetries)
    hall fuel [] 0 r
    (by simp only [List.length_nil, Nat.cast_zero]; omega)
    (by simpa using hN) hr
  simpa [SendGeminiRequest] using h

/-- A well-behaved always-429 credential for concrete scenarios. -/
def mk429Cred (pid : Char) : Cred :=
  { projectID := [pid], accessToken := ['t'], refreshToken := ['r'], expired := false }

/-- Two-credential always-429 environment with round-robin selection. -/
def envC1 : DispatchEnv :=
  { pool := [mk429Cred 'a', mk429Cred 'b']
    banned := fun _ => false
    select := fun i => some (if i % 2 == 0 then mk429Cred 'a' else mk429Cred 'b')
    refreshOk := fun _ => true
    refreshOk401 := fun _ => true
    onboard := fun _ => .ok
    onboardRetryOk := fun _ => true
    sendStatus := fun _ => 429
    configuredMaxRetries := 5 }

/-- Witness for `sendGeminiRequest_all429_min_attempts` at the two-credential
always-429 environment. -/
theorem sendGeminiRequest_all429_min_attempts_witness :
    (SendGeminiRequest envC1 5).2.length =
      min (effectiveMaxRetries envC1.configuredMaxRetries).toNat
        (GetCredentialPoolSize envC1) := by
  have hall : allRateLimited envC1 := by
    constructor
    · intro i
      refine ⟨if i % 2 == 0 then mk429Cred 'a' else mk429Cred 'b', rfl, ?_, rfl⟩
      split <;> decide
    · decide
  exact (sendGeminiRequest_all429_min_attempts envC1 5 (.rateLimitExceeded 2) hall
    (by decide) (by decide)).2

/-- One-credential always-429 environment with `MAX_RETRY_ATTEMPTS = 0`. -/
def envC1cx : DispatchEnv :=
  { pool := [mk429Cred 'a']
    banned := fun _ => false
    select := fun _ => some (mk429Cred 'a')
    refreshOk := fun _ => true
    refreshOk401 := fun _ => true
    onboard := fun _ => .ok
    onboardRetryOk := fun _ => true
    sendStatus := fun _ => 429
    configuredMaxRetries := 0 }

/-- C1 counterexample: with the configured maximum retry attempts equal to 0
and one unbanned always-429 credential, the dispatcher makes 1 upstream
attempt, not `min(configured, N) = 0` — the loop substitutes 5 for a
non-positive configured value. -/
theorem sendGeminiRequest_c1_counterexample :
    (SendGeminiRequest envC1cx 3).1 = some (.rateLimitExceeded 1) ∧
    (SendGeminiRequest envC1cx 3).2.length = 1 ∧
    envC1cx.configuredMaxRetries = 0 ∧
    GetCredentialPoolSize envC1cx = 1 ∧
    (SendGeminiRequest envC1cx 3).2.length ≠
      min envC1cx.configuredMaxRetries.toNat (GetCredentialPoolSize envC1cx) := by
  decide

/-- C4 (amended): the per-request attempt budget — the number of credentials
tried before a terminating all-429 dispatch gives up (pool permitting) — is
the configured value when it is positive, and exactly 5 when the configured
value is zero or negative. -/
theorem dispatcher_attempt_budget (env : DispatchEnv) (fuel : Nat)
    (r : DispatchResult) (hall : allRateLimited env)
    (hr : (SendGeminiRequest env fuel).1 = some r) :
    (env.configuredMaxRetries ≤ 0 → 5 ≤ GetCredentialPoolSize env →
      (SendGeminiRequest env fuel).2.length = 5) ∧
    (0 < env.configuredMaxRetries →
      env.configuredMaxRetries.toNat ≤ GetCredentialPoolSize env →
      (SendGeminiRequest env fuel).2.length = env.configuredMaxRetries.toNat) := by
  constructor
  · intro hc hN
    have heff : effectiveMaxRetries env.configuredMaxRetries = 5 := by
      unfold effectiveMaxRetries; rw [if_pos hc]
    have h := dispatchLoop_all429 env (effectiveMaxRetries env.configuredMaxRetries)
      hall fuel [] 0 r
      (by simp only [List.length_nil, Nat.cast_zero, heff]; omega)
      (by simp only [List.length_nil]; omega) hr
    have h2 := h.2
    simp only [List.length_nil, Nat.add_zero] at h2
    rw [SendGeminiRequest, h2, heff]
    omega
  · intro hc hN
    have heff : effectiveMaxRetries env.configuredMaxRetries =
        env.configuredMaxRetries := by
      unfold effectiveMaxRetries; rw [if_neg (by omega)]
    have h := dispatchLoop_all429 env (effectiveMaxRetries env.configuredMaxRetries)
      hall fuel [] 0 r
      (by simp only [List.length_nil, Nat.cast_zero, heff]; omega)
      (by simp only [List.length_nil]; omega) hr
    have h2 := h.2
    simp only [List.length_nil, Nat.add_zero] at h2
    rw [SendGeminiRequest, h2, heff]
    omega

/-- Five always-429 credentials. -/
def poolC4 : List Cred :=
  [mk429Cred 'a', mk429Cred 'b', mk429Cred 'c', mk429Cred 'd', mk429Cred 'e']

/-- Five-credential always-429 environment with `MAX_RETRY_ATTEMPTS = 0` and
cyclic selection. -/
def envC4 : DispatchEnv :=
  { pool := poolC4
    banned := fun _ => false
    select := fun i => poolC4.get? (i % 5)
    refreshOk := fun _ => true
    refreshOk401 := fun _ => true
    onboard := fun _ => .ok
    onboardRetryOk := fun _ => true
    sendStatus := fun _ => 429
    configuredMaxRetries := 0 }

/-- `allRateLimited` holds for the five-credential environment. -/
theorem envC4_allRateLimited : allRateLimited envC4 := by
  constructor
  · intro i
    have hlt : i % 5 < poolC4.length := Nat.mod_lt _ (by decide)
    refine ⟨poolC4.get ⟨i % 5, hlt⟩, ?_, List.get_mem _ _ hlt, rfl⟩
    show poolC4.get? (i % 5) = _
    rw [List.get?_eq_get hlt]
  · decide

/-- Witness for `dispatcher_attempt_budget`: configured value 0, five
credentials, exactly 5 attempts. -/
theorem dispatcher_attempt_budget_witness :
    (SendGeminiRequest envC4 8).2.length = 5 :=
  (dispatcher_attempt_budget envC4 8 (.rateLimitExceeded 5) envC4_allRateLimited
    (by decide)).1 (by decide) (by decide)

/-- C4 counterexample: with the configured value 0 the loop's budget is 5,
not `max(0, 1) = 1`: the adjusted retry bound is 5 and the five-credential
all-429 dispatch tries 5 credentials before giving up. -/
theorem dispatcher_budget_counterexample :
    effectiveMaxRetries 0 = 5 ∧ effectiveMaxRetries 0 ≠ max (0 : Int) 1 ∧
    (SendGeminiRequest envC4 8).1 = some (.rateLimitExceeded 5) ∧
    (SendGeminiRequest envC4 8).2.length ≠ (max (0 : Int) 1).toNat := by
  decide

/-! ## Rate-limited selector (`auth.RateLimitedCredentialPool`)

Embeds `GetCredentialWithRateLimit`: ban filtering, the round-robin cursor,
the per-credential minimum-interval check, the shortest-wait sleep (modelled
as advancing `now` by the sleep duration) and the post-loop fallback.  The
ban list is passed as a predicate where Go consults the global
`banlist.GetBanList()`. -/

/-- Placeholder for out-of-range list indexing (never consulted: the pool is
checked non-empty before the loop). -/
def dummyCred : Cred :=
  { projectID := [], accessToken := [], refreshToken := [], expired := false }

/-- The mutable fields of `RateLimitedCredentialPool` together with the
embedded `CredentialPool`'s credential list. -/
structure RLPool where
  credentials : List Cred
  lastUsed : List Char → Option Int
  minInterval : Int
  currentIndex : Nat

/-- The ban-filtered credential list built at the top of
`GetCredentialWithRateLimit`. -/
def availableCredentials (p : RLPool) (banned : List Char → Bool) : List Cred :=
  p.credentials.filter (fun c => !banned c.projectID)

/-- The shortest-remaining-wait scan over the available credentials:
initialised to `minInterval`, lowered by any positive remaining wait that is
strictly smaller. -/
def shortestWaitCalc (avail : List Cred) (lastUsed : List Char → Option Int)
    (minInterval now : Int) : Int :=
  avail.foldl (fun sw c =>
    match lastUsed c.projectID with
    | some lastTime =>
      let wait := minInterval - (now - lastTime)
      if 0 < wait ∧ wait < sw then wait else sw
    | none => sw) minInterval

/-- The selection loop of `GetCredentialWithRateLimit`.  Returns the selected
project ID, the time of the selection (Go's `now`, advanced by any sleeps)
and the cursor value to store; `none` means the fuel ran out.  The post-loop
fallback (`availableCredentials[0]`) is the final `else`. -/
def rlLoop (avail : List Cred) (lastUsed : List Char → Option Int)
    (minInterval : Int) :
    Nat → Nat → Nat → Int → Option (List Char × Int × Nat)
  | 0, _, _, _ => none
  | fuel + 1, curIdx, attempts, now =>
    if attempts < avail.length * 2 then
      let cred := avail.getD (curIdx % avail.length) dummyCred
      let curIdx' := (curIdx + 1) % avail.length
      let attempts' := attempts + 1
      let eligible :=
        match lastUsed cred.projectID with
        | none => true
        | some lastTime => minInterval ≤ now - lastTime
      if eligible then some (cred.projectID, now, curIdx')
      else if avail.length ≤ attempts' then
        let sw := shortestWaitCalc avail lastUsed minInterval now
        if 0 < sw then rlLoop avail lastUsed minInterval fuel curIdx' 0 (now + sw)
        else rlLoop avail lastUsed minInterval fuel curIdx' attempts' now
      else rlLoop avail lastUsed minInterval fuel curIdx' attempts' now
    else
      some ((avail.getD 0 dummyCred).projectID, now, curIdx)

/-- What `GetCredentialWithRateLimit` produces: one of its two errors, or the
selected credential's project ID, the selection time, and the pool with the
updated last-used map and cursor. -/
inductive RLResult
  | errNoCredentials
  | errNoUnbanned
  | fuelOut
  | ok (pid : List Char) (t : Int) (next : RLPool)

/-- `GetCredentialWithRateLimit`. -/
def GetCredentialWithRateLimit (p : RLPool) (banned : List Char → Bool)
    (now : Int) (fuel : Nat) : RLResult :=
  if p.credentials.length = 0 then .errNoCredentials
  else
    let avail := availableCredentials p banned
    if avail.length = 0 then .errNoUnbanned
    else
      match rlLoop avail p.lastUsed p.minInterval fuel p.currentIndex 0 now with
      | none => .fuelOut
      | some (pid, t, idx) =>
        .ok pid t
          { p with
            lastUsed := fun k => if k = pid then some t else p.lastUsed k
            currentIndex := idx }

/-- The shortest-wait scan stays positive when the interval is positive. -/
theorem shortestWaitCalc_pos (avail : List Cred)
    (lastUsed : List Char → Option Int) (minInterval now : Int)
    (hmin : 0 < minInterval) :
    0 < shortestWaitCalc avail lastUsed minInterval now := by
  unfold shortestWaitCalc
  have : ∀ l : List Cred, ∀ sw : Int, 0 < sw →
      0 < l.foldl (fun sw c =>
        match lastUsed c.projectID with
        | some lastTime =>
          let wait := minInterval - (now - lastTime)
          if 0 < wait ∧ wait < sw then wait else sw
        | none => sw) sw := by
    intro l
    induction l with
    | nil => intro sw h; simpa using h
    | cons c l ihl =>
      intro sw h
      simp only [List.foldl_cons]
      apply ihl
      cases lastUsed c.projectID with
      | none => exact h
      | some lastTime =>
        simp only
        split
        · rename_i hw; exact hw.1
        · exact h
  exact this avail minInterval hmin

/-- The loop only returns through the eligibility check while the attempt
counter stays below the pool size, so any returned credential's recorded
last-used time lies at least `minInterval` before the returned selection
time. -/
theorem rlLoop_spacing (avail : List Cred) (lastUsed : List Char → Option Int)
    (minInterval : Int) (hmin : 0 < minInterval) (hL : 1 ≤ avail.length) :
    ∀ fuel curIdx attempts now pid t idx,
      attempts < avail.length →
      rlLoop avail lastUsed minInterval fuel curIdx attempts now
        = some (pid, t, idx) →
      ∀ lu, lastUsed pid = some lu → minInterval ≤ t - lu := by
  intro fuel
  induction fuel with
  | zero => intro _ _ _ _ _ _ _ h; exact absurd h (by simp [rlLoop])
  | succ f ih =>
    intro curIdx attempts now pid t idx hatt hloop lu hlu
    rw [rlLoop, if_pos (show attempts < avail.length * 2 by omega)] at hloop
    simp only at hloop
    cases heq : lastUsed (avail.getD (curIdx % avail.length) dummyCred).projectID with
    | none =>
      rw [heq] at hloop
      rw [if_pos rfl] at hloop
      injection hloop with h
      obtain ⟨hpid, ht, hidx⟩ : (avail.getD (curIdx % avail.length) dummyCred).projectID
          = pid ∧ now = t ∧ (curIdx + 1) % avail.length = idx := by
        simpa using h
      rw [hpid] at heq
      rw [heq] at hlu
      exact absurd hlu (by simp)
    | some lastTime =>
      rw [heq] at hloop
      by_cases he : minInterval ≤ now - lastTime
      · rw [if_pos (by simpa using he)] at hloop
        injection hloop with h
        obtain ⟨hpid, ht, hidx⟩ : (avail.getD (curIdx % avail.length) dummyCred).projectID
            = pid ∧ now = t ∧ (curIdx + 1) % avail.length = idx := by
          simpa using h
        rw [hpid] at heq
        rw [heq] at hlu
        injection hlu with hlu
        omega
      · rw [if_neg (by simpa using he)] at hloop
        by_cases hfull : avail.length ≤ attempts + 1
        · rw [if_pos hfull] at hloop
          rw [if_pos (by
            simpa using shortestWaitCalc_pos avail lastUsed minInterval now hmin)] at hloop
          exact ih _ 0 _ pid t idx (by omega) hloop lu hlu
        · rw [if_neg hfull] at hloop
          exact ih _ (attempts + 1) _ pid t idx (by omega) hloop lu hlu

/-- A successful selection respects the recorded last-used time, records the
selection time for the returned credential, and leaves interval and
credential list unchanged. -/
theorem GetCredentialWithRateLimit_ok (p : RLPool) (banned : List Char → Bool)
    (now : Int) (fuel : Nat) (pid : List Char) (t : Int) (next : RLPool)
    (hmin : 0 < p.minInterval)
    (hL : 1 ≤ (availableCredentials p banned).length)
    (hok : GetCredentialWithRateLimit p banned now fuel = .ok pid t next) :
    (∀ lu, p.lastUsed pid = some lu → p.minInterval ≤ t - lu) ∧
    next.lastUsed pid = some t ∧
    next.minInterval = p.minInterval ∧
    next.credentials = p.credentials := by
  have hfil : (availableCredentials p banned).length ≤ p.credentials.length :=
    List.length_filter_le _ _
  unfold GetCredentialWithRateLimit at hok
  rw [if_neg (by omega)] at hok
  simp only at hok
  rw [if_neg (by omega)] at hok
  cases hrl : rlLoop (availableCredentials p banned) p.lastUsed p.minInterval
      fuel p.currentIndex 0 now with
  | none => rw [hrl] at hok; exact absurd hok (by simp)
  | some v =>
    obtain ⟨pid', t', idx'⟩ := v
    rw [hrl] at hok
    simp only [RLResult.ok.injEq] at hok
    obtain ⟨hpid, ht, hnext⟩ := hok
    subst hpid; subst ht
    refine ⟨?_, ?_, ?_, ?_⟩
    · exact rlLoop_spacing (availableCredentials p banned) p.lastUsed p.minInterval
        hmin hL fuel p.currentIndex 0 now pid' t' idx' (by omega) hrl
    · rw [← hnext]; simp
    · rw [← hnext]
    · rw [← hnext]

/-- C3: with rate limiting enabled (positive minimum interval) and at least
two unbanned credentials, two consecutive selections that return the same
credential identifier are at least the minimum interval apart: the first
selection records its time as the credential's last-used time, and the
second only returns a credential whose recorded last-used time lies at least
`minInterval` before the selection time. -/
theorem rateLimit_no_repeat_within_interval
    (p p₂ p₃ : RLPool) (banned : List Char → Bool) (now₁ now₂ t₁ t₂ : Int)
    (fuel₁ fuel₂ : Nat) (pid : List Char)
    (hmin : 0 < p.minInterval)
    (hL : 2 ≤ (availableCredentials p banned).length)
    (h1 : GetCredentialWithRateLimit p banned now₁ fuel₁ = .ok pid t₁ p₂)
    (h2 : GetCredentialWithRateLimit p₂ banned now₂ fuel₂ = .ok pid t₂ p₃) :
    p.minInterval ≤ t₂ - t₁ := by
  obtain ⟨hs1, hrec, hmin2, hcred⟩ :=
    GetCredentialWithRateLimit_ok p banned now₁ fuel₁ pid t₁ p₂ hmin (by omega) h1
  have hL2 : 1 ≤ (availableCredentials p₂ banned).length := by
    unfold availableCredentials at hL ⊢
    rw [hcred]
    omega
  obtain ⟨hs2, -, -, -⟩ :=
    GetCredentialWithRateLimit_ok p₂ banned now₂ fuel₂ pid t₂ p₃
      (by rw [hmin2]; exact hmin) hL2 h2
  have h := hs2 t₁ hrec
  rw [hmin2] at h
  exact h

/-- A two-credential rate-limited pool: `b` last used at 100, `a` never,
interval 100ms, cursor 0. -/
def poolC3 : RLPool :=
  { credentials := [mk429Cred 'a', mk429Cred 'b']
    lastUsed := fun k => if k = ['b'] then some 100 else none
    minInterval := 100
    currentIndex := 0 }

/-- Witness for `rateLimit_no_repeat_within_interval`: credential `a` is
selected at time 0 and again at time 150, 150 ≥ 100 after its recording. -/
theorem rateLimit_no_repeat_within_interval_witness :
    poolC3.minInterval ≤ (150 : Int) - 0 :=
  rateLimit_no_repeat_within_interval poolC3 _ _ (fun _ => false) 0 150 0 150 4 4
    ['a'] (by decide) (by decide) rfl rfl

/-! ## Protocol transformer (`transformers` package) and fake-stream merge
(`routes.ChunkAccumulator.mergeChunks`)

The dynamic JSON maps are embedded as typed структures carrying exactly the
fields the code reads.  A Go type assertion that can fail is an `Option` (or
a `[]`-sentinel for string fields Go reads with `, _` defaulting to "").  The
`index` field needs a two-constructor number type: JSON-parsed candidates
hold a `float64` while `mergeChunks` writes a Go `int`, and the code's
`.(float64)` / `.(int)` assertions distinguish them. -/

/-- A JSON-map number value as stored in an `index` field: `jfloat` for a
JSON-decoded `float64` (integral in all observed uses), `jint` for a Go `int`
written by `mergeChunks`. -/
inductive JNum
  | jint (n : Int)
  | jfloat (n : Int)
  deriving Repr, DecidableEq

/-- The `inlineData` sub-map; `mimeType = []` models a missing or empty MIME
type, `data = none` a missing `data` key. -/
structure GInline where
  mimeType : List Char
  data : Option (List Char)
  deriving Repr, DecidableEq

/-- A Gemini content part as the transformers read it. -/
structure GPart where
  text : Option (List Char)
  thought : Bool
  inlineData : Option GInline
  deriving Repr, DecidableEq

/-- A Gemini candidate; `finishReason = []` models a missing key (Go reads it
with `, _` defaulting to `""`). -/
structure GCand where
  indexNum : Option JNum
  role : List Char
  parts : List GPart
  finishReason : List Char
  deriving Repr, DecidableEq

/-- A streamed Gemini chunk.  Envelope fields other than `candidates` are
pass-through in `mergeChunks` (copied from the first chunk) and are not
modelled. -/
structure GChunk where
  candidates : List GCand
  deriving Repr, DecidableEq

/-- `strings.HasPrefix`. -/
def strStartsWith : List Char → List Char → Bool
  | _, [] => true
  | [], _ :: _ => false
  | c :: s, p :: ps => c == p && strStartsWith s ps

/-- The Markdown data-URI the response transformer emits for an inline image
part: `fmt.Sprintf("![image](data:%s;base64,%s)", mimeType, data)`. -/
def mkImageMarkdown (mime d : List Char) : List Char :=
  "![image](data:".toList ++ mime ++ ";base64,".toList ++ d ++ [')']

/-- The per-candidate part scan of `GeminiResponseToOpenAI` (and of
`GeminiStreamChunkToOpenAI`, which shares it): ordinary text accumulates into
content parts, thought text into the reasoning string, and an inline image
part re-encodes as a Markdown data-URI (MIME type defaulting to `image/png`,
non-image MIME types dropped). -/
def collectParts (parts : List GPart) : List (List Char) × List Char :=
  parts.foldl (fun acc p =>
    match p.text with
    | some t => if p.thought then (acc.1, acc.2 ++ t) else (acc.1 ++ [t], acc.2)
    | none =>
      match p.inlineData with
      | some inl =>
        match inl.data with
        | some d =>
          let mime := if inl.mimeType = [] then "image/png".toList else inl.mimeType
          if strStartsWith mime "image/".toList then
            (acc.1 ++ [mkImageMarkdown mime d], acc.2)
          else acc
        | none => acc
      | none => acc) ([], [])

/-- `mapFinishReason`. -/
def mapFinishReason (geminiReason : List Char) : Option (List Char) :=
  if geminiReason = "STOP".toList then some "stop".toList
  else if geminiReason = "MAX_TOKENS".toList then some "length".toList
  else if geminiReason = "SAFETY".toList ∨ geminiReason = "RECITATION".toList then
    some "content_filter".toList
  else none

/-- The OpenAI message object built per candidate; `reasoningContent = none`
models the `reasoning_content` key being absent. -/
structure OAMessage where
  role : List Char
  content : List Char
  reasoningContent : Option (List Char)
  deriving Repr, DecidableEq

/-- One entry of the OpenAI `choices` array. -/
structure OAChoice where
  index : Int
  message : OAMessage
  finishReason : Option (List Char)
  deriving Repr, DecidableEq

/-- The per-candidate body of `GeminiResponseToOpenAI`: role mapping, part
scan, `strings.Join(contentParts, "\n\n")`, conditional reasoning field, and
the `.(float64)` read of `index` (a Go `int` stored by `mergeChunks` fails
the assertion and reads as 0). -/
def candidateToChoice (c : GCand) : OAChoice :=
  let role := if c.role = "model".toList then "assistant".toList else c.role
  let acc := collectParts c.parts
  let contentStr := List.intercalate "\n\n".toList acc.1
  { index :=
      match c.indexNum with
      | some (.jfloat n) => n
      | _ => 0
    message :=
      { role := role
        content := contentStr
        reasoningContent := if acc.2 = [] then none else some acc.2 }
    finishReason := mapFinishReason c.finishReason }

/-- `GeminiResponseToOpenAI`, restricted to the `choices` array (the
`id`/`object`/`created`/`model` envelope is fresh metadata, not a function of
the input candidates). -/
def GeminiResponseToOpenAI (candidates : List GCand) : List OAChoice :=
  candidates.map candidateToChoice

/-- The grouping key of `mergeChunks`: the `.(float64)` read of `index`,
defaulting to 0. -/
def groupIndex (c : GCand) : Int :=
  match c.indexNum with
  | some (.jfloat n) => n
  | _ => 0

/-- The three accumulators of one merge group. -/
structure MergeAcc where
  contentParts : List GPart
  reasoningParts : List (List Char)
  finalFinishReason : List Char
  deriving Repr, DecidableEq

/-- One candidate's contribution to its merge group: thought-flagged text
parts feed the reasoning list, every other part is kept whole, and a
non-empty finish reason overwrites the previous one (last non-empty wins). -/
def mergeCandStep (acc : MergeAcc) (c : GCand) : MergeAcc :=
  let acc := c.parts.foldl (fun a p =>
    if p.thought then
      match p.text with
      | some t => { a with reasoningParts := a.reasoningParts ++ [t] }
      | none => a
    else { a with contentParts := a.contentParts ++ [p] }) acc
  if c.finishReason ≠ [] then { acc with finalFinishReason := c.finishReason } else acc

/-- Merging one index group: concatenated ordinary parts, one trailing
thought part holding the joined reasoning text (when non-empty), the group
index stored as a Go `int`, and the last non-empty finish reason. -/
def mergeGroup (idx : Int) (cands : List GCand) : GCand :=
  let acc := cands.foldl mergeCandStep ⟨[], [], []⟩
  let parts :=
    if 0 < acc.reasoningParts.length then
      let reasoningText := List.intercalate [] acc.reasoningParts
      if reasoningText ≠ [] then
        acc.contentParts ++
          [{ text := some reasoningText, thought := true, inlineData := none }]
      else acc.contentParts
    else acc.contentParts
  { indexNum := some (.jint idx)
    role := "model".toList
    parts := parts
    finishReason := acc.finalFinishReason }

/-- `ChunkAccumulator.mergeChunks`: flatten all candidates, group by index,
and merge the groups for index values `0 .. numberOfGroups-1` (the Go loop
iterates `index := 0; index < len(candidatesByIndex); index++`), skipping
empty groups. -/
def mergeChunks (chunks : List GChunk) : List GCand :=
  let allCandidates := (chunks.map fun ch => ch.candidates).flatten
  let keys := (allCandidates.map groupIndex).dedup
  (List.range keys.length).filterMap (fun i =>
    let group := allCandidates.filter (fun c => groupIndex c == (i : Int))
    if group.length = 0 then none else some (mergeGroup (i : Int) group))

/-- The `delta` object of the synthetic fake-stream chunk. -/
structure OADelta where
  content : Option (List Char)
  reasoningContent : Option (List Char)
  deriving Repr, DecidableEq

/-- One entry of the synthetic chunk's `choices` array. -/
structure OAStreamChoice where
  index : Int
  delta : OADelta
  finishReason : Option (List Char)
  deriving Repr, DecidableEq

/-- The tail of `handleFakeStreamChatCompletion`: each choice's message
becomes a delta carrying all the content (the `content` key is always a
string, so the `.(string)` assertion always succeeds; `reasoning_content`
passes through only if present). -/
def buildFakeStreamChoices (choices : List OAChoice) : List OAStreamChoice :=
  choices.map fun ch =>
    { index := ch.index
      delta :=
        { content := some ch.message.content
          reasoningContent := ch.message.reasoningContent }
      finishReason := ch.finishReason }

/-- The fake-stream pipeline after collection: merge the accumulated chunks,
transform once, and build the single synthetic chunk's choices. -/
def fakeStreamMergedChoices (chunks : List GChunk) : List OAStreamChoice :=
  buildFakeStreamChoices (GeminiResponseToOpenAI (mergeChunks chunks))

/-- Incremental event: candidate 0, ordinary text "Hello". -/
def chunkHello : GChunk :=
  { candidates := [⟨some (.jfloat 0), "model".toList,
      [⟨some "Hello".toList, false, none⟩], []⟩] }

/-- Incremental event: candidate 0, ordinary text " world". -/
def chunkWorld : GChunk :=
  { candidates := [⟨some (.jfloat 0), "model".toList,
      [⟨some " world".toList, false, none⟩], []⟩] }

/-- Incremental event: candidate 0, thought text "thinking...". -/
def chunkThinking : GChunk :=
  { candidates := [⟨some (.jfloat 0), "model".toList,
      [⟨some "thinking...".toList, true, none⟩], []⟩] }

/-- C6 counterexample: the merged-and-transformed single chunk's content text
is not "Hello world" — the transformer joins the preserved text parts with a
blank line (`strings.Join(contentParts, "\n\n")`). -/
theorem fakeStream_merge_content_not_claimed :
    (fakeStreamMergedChoices [chunkHello, chunkWorld, chunkThinking]).map
        (fun ch => ch.delta.content) ≠ [some "Hello world".toList] := by
  decide

/-- C6 (amended): merging the three incremental events for candidate 0 and
transforming the merge yields a single chunk whose content text is
"Hello\n\n world" (the two ordinary text parts survive the merge as separate
parts and the transformer joins them with a blank line), whose reasoning
field is "thinking...", and with no finish reason. -/
theorem fakeStream_merge_hello_world :
    fakeStreamMergedChoices [chunkHello, chunkWorld, chunkThinking] =
      [{ index := 0
         delta :=
           { content := some "Hello\n\n world".toList
             reasoningContent := some "thinking...".toList }
         finishReason := none }] := by
  decide

/-! ## Native streaming handler (`routes.handleGeminiStreamingResponse`)

Embeds the real-streaming assembler: the accumulation buffer, the sentence
boundary test, and the three flush conditions (boundary, 50ms since the last
flush, 8KB buffer).  Each incoming channel value is a `StreamEvent`: the raw
chunk string appended to the buffer, the parsed candidates' parts
(`none` models a `json.Unmarshal` failure), and the arrival time in
milliseconds standing for `time.Now()` inside the loop.  Buffer length in
characters stands for `strings.Builder.Len()` bytes (exact for ASCII). -/

/-- One value received from the streaming channel. -/
structure StreamEvent where
  raw : List Char
  cands : Option (List (List GPart))
  arrival : Int
  deriving Repr, DecidableEq

/-- The candidate's concatenated text (`textContent += text` over parts). -/
def candText (parts : List GPart) : List Char :=
  parts.foldl (fun acc p =>
    match p.text with
    | some t => acc ++ t
    | none => acc) []

/-- `isSentenceBoundary`: empty text is no boundary; otherwise test the last
rune against `. ! ?`, their CJK forms, and newline. -/
def isSentenceBoundary (text : List Char) : Bool :=
  match text.getLast? with
  | none => false
  | some c =>
    c == '.' || c == '!' || c == '?' ||
      c == '。' || c == '！' || c == '？' || c == '\n'

/-- Whether the candidate loop hits a flush condition for this event:
a sentence boundary in some candidate's text, 50ms since the last flush, or
the 8KB buffer cap (the latter two are checked inside the candidate loop, so
only when at least one candidate parsed). -/
def flushTriggered (cands : List (List GPart)) (bufLen : Nat)
    (lastFlush arrival : Int) : Bool :=
  cands.any fun parts =>
    isSentenceBoundary (candText parts) ||
      50 ≤ arrival - lastFlush || 8 * 1024 ≤ bufLen

/-- The channel loop of `handleGeminiStreamingResponse`, returning the list
of flushed buffer contents (the `data:` payloads written), in order.  When a
flush condition fires the Go code calls `sendAccumulatedChunk()` and then
`return`s from the handler, so the first mid-stream flush ends the output;
only when no condition ever fires does the final
`sendAccumulatedChunk()` after the loop flush the remaining buffer. -/
def hgsrLoop : List StreamEvent → List Char → Int → List (List Char)
  | [], buf, _ => if buf.length = 0 then [] else [buf]
  | e :: rest, buf, lastFlush =>
    let buf' := buf ++ e.raw
    match e.cands with
    | none => hgsrLoop rest buf' lastFlush
    | some cands =>
      if flushTriggered cands buf'.length lastFlush e.arrival then
        if buf'.length = 0 then [] else [buf']
      else hgsrLoop rest buf' lastFlush

/-- `handleGeminiStreamingResponse` over a finished upstream stream;
`startTime` is the handler's initial `lastFlushTime`. -/
def handleGeminiStreamingResponse (events : List StreamEvent) (startTime : Int) :
    List (List Char) :=
  hgsrLoop events [] startTime

/-- First event: candidate text "A." (sentence boundary), arriving at 0ms. -/
def eventDot : StreamEvent :=
  { raw := "A.".toList
    cands := some [[⟨some "A.".toList, false, none⟩]]
    arrival := 0 }

/-- Second event: candidate text "B", arriving at 1ms. -/
def eventTail : StreamEvent :=
  { raw := "B".toList
    cands := some [[⟨some "B".toList, false, none⟩]]
    arrival := 1 }

/-- C5: the assembler does not continue after a flush.  For the two-event
stream ["A.", "B"], the first event ends in a sentence terminator, the
handler flushes "A." and returns, and the second event's content is never
delivered — against the documented design of flushing and continuing until
stream end (which would also flush "B"). -/
theorem handleGeminiStreamingResponse_drops_tail :
    handleGeminiStreamingResponse [eventDot, eventTail] 0 = ["A.".toList] ∧
    handleGeminiStreamingResponse [eventDot, eventTail] 0 ≠
      ["A.".toList, "B".toList] := by
  decide

/-! ## Request-direction image extraction (`transformers.extractMarkdownImages`
and `parseDataURI`)

The regex `!\[[^\]]*\]\(([^)]+)\)` is deterministic: at any start position
the *alt* part runs to the first `]` and the URL part to the first `)`, so
Go's leftmost non-overlapping `FindAllStringSubmatchIndex` is an explicit
left-to-right scan. -/

/-- `strings.SplitN(s, sep, 2)`: `none` when `sep` does not occur (Go yields
one part and the caller's `len != 2` check fails). -/
def splitFirstAt (sep : Char) : List Char → Option (List Char × List Char)
  | [] => none
  | c :: rest =>
    if c == sep then some ([], rest)
    else
      match splitFirstAt sep rest with
      | some (l, r) => some (c :: l, r)
      | none => none

/-- `parseDataURI`: require the `data:` scheme and a comma; the MIME type is
the `;`-head of what follows the first `:` of the header, defaulting to
`image/png` when missing or empty.  The result is the Gemini inline-binary
part. -/
def parseDataURI (url : List Char) : Option GPart :=
  if strStartsWith url "data:".toList then
    match splitFirstAt ',' url with
    | none => none
    | some (header, base64Data) =>
      let mimeType :=
        match splitFirstAt ':' header with
        | some (_, post) =>
          let mimeTypePart := post.takeWhile (· ≠ ';')
          if mimeTypePart ≠ [] then mimeTypePart else "image/png".toList
        | none => "image/png".toList
      some
        { text := none, thought := false
          inlineData := some { mimeType := mimeType, data := some base64Data } }
  else none

/-- Go `unicode.IsSpace` restricted to the ASCII whitespace set (the one that
can occur around a Markdown URL). -/
def isGoSpace (c : Char) : Bool :=
  c == ' ' || c == '\t' || c == '\n' || c == '\x0b' || c == '\x0c' || c == '\r'

/-- Drop cut characters from both ends (`strings.Trim`-style). -/
def trimBy (cut : Char → Bool) (s : List Char) : List Char :=
  ((s.dropWhile cut).reverse.dropWhile cut).reverse

/-- `strings.TrimSpace` followed by `strings.Trim(url, "\"'")`. -/
def trimUrl (url : List Char) : List Char :=
  trimBy (fun c => c == '"' || c == '\'') (trimBy isGoSpace url)

/-- The part of a regex match after the opening `![`: alt text up to the
first `]`, then `(`, then a non-empty URL up to the first `)`.  Returns the
alt text, the URL group and the remainder after the closing `)`. -/
def matchTail (rest : List Char) : Option (List Char × List Char × List Char) :=
  match rest.dropWhile (· ≠ ']') with
  | ']' :: '(' :: rest3 =>
    let url := rest3.takeWhile (· ≠ ')')
    if url = [] then none
    else
      match rest3.dropWhile (· ≠ ')') with
      | ')' :: rest5 => some (rest.takeWhile (· ≠ ']'), url, rest5)
      | _ => none
  | _ => none

/-- One regex match attempt at the current position: `![` then `matchTail`.
Returns the full matched text, the URL group and the remainder after the
match. -/
def tryMatchImage (s : List Char) : Option (List Char × List Char × List Char) :=
  match s with
  | c0 :: c1 :: rest =>
    if c0 = '!' ∧ c1 = '[' then
      match matchTail rest with
      | some (alt, url, rest5) =>
        some ('!' :: '[' :: (alt ++ ']' :: '(' :: (url ++ [')'])), url, rest5)
      | none => none
    else none
  | _ => none

/-- Whether the regex matches anywhere (`len(matches) == 0` test). -/
def hasImageMatch : List Char → Bool
  | [] => false
  | c :: rest => (tryMatchImage (c :: rest)).isSome || hasImageMatch rest

/-- A plain text part. -/
def textPart (t : List Char) : GPart :=
  { text := some t, thought := false, inlineData := none }

/-- The per-match part: trim the URL, parse it as a data URI when it has the
`data:` scheme, and otherwise (or on parse failure) keep the original
markdown as literal text. -/
def urlToPart (matched url : List Char) : GPart :=
  let url' := trimUrl url
  if strStartsWith url' "data:".toList then
    match parseDataURI url' with
    | some p => p
    | none => textPart matched
  else textPart matched

/-- The match-building scan over the message text: emit pending literal text
before each match, the match's part, and a trailing literal text part.  The
fuel argument makes the recursion structural (each step consumes at least one
character, so `length + 1` fuel always suffices; the fuel-exhausted branches
are unreachable at that budget). -/
def scanImages (fuel : Nat) (s pending : List Char) : List GPart :=
  match s with
  | [] => if pending ≠ [] then [textPart pending] else []
  | c :: rest =>
    match tryMatchImage (c :: rest) with
    | some (matched, url, rest5) =>
      match fuel with
      | 0 => []
      | f + 1 =>
        (if pending ≠ [] then [textPart pending] else []) ++
          (urlToPart matched url :: scanImages f rest5 [])
    | none =>
      match fuel with
      | 0 => []
      | f + 1 => scanImages f rest (pending ++ [c])

/-- `extractMarkdownImages`: when the regex does not match at all the whole
text is one literal part (even when empty); otherwise the scan builds the
part list. -/
def extractMarkdownImages (text : List Char) : List GPart :=
  if hasImageMatch text then scanImages (text.length + 1) text [] else [textPart text]

/-- `takeWhile`/`dropWhile` across a satisfying prefix followed by a stopping
element. -/
theorem takeWhile_append_stop {α} (p : α → Bool) (l r : List α) (x : α)
    (hl : ∀ c ∈ l, p c = true) (hx : p x = false) :
    (l ++ x :: r).takeWhile p = l ∧ (l ++ x :: r).dropWhile p = x :: r := by
  induction l with
  | nil => simp [List.takeWhile_cons, List.dropWhile_cons, hx]
  | cons c t iht =>
    have hc : p c = true := hl c (by simp)
    have iht' := iht fun d hd => hl d (by simp [hd])
    simp [List.takeWhile_cons, List.dropWhile_cons, hc, iht'.1, iht'.2]

/-- `strings.HasPrefix (pre ++ rest) pre`. -/
theorem strStartsWith_append (pre rest : List Char) :
    strStartsWith (pre ++ rest) pre = true := by
  induction pre with
  | nil => cases rest with
    | nil => rfl
    | cons c t => rfl
  | cons c t iht => simp [strStartsWith, iht]

/-- Splitting at the first separator occurrence. -/
theorem splitFirstAt_append (sep : Char) (l r : List Char)
    (hl : ∀ c ∈ l, c ≠ sep) :
    splitFirstAt sep (l ++ sep :: r) = some (l, r) := by
  induction l with
  | nil => simp [splitFirstAt]
  | cons c t iht =>
    have hc : (c == sep) = false := by simpa using hl c (by simp)
    simp [splitFirstAt, hc, iht fun d hd => hl d (by simp [hd])]

/-- Trimming removes nothing when no character is in the cut set. -/
theorem trimBy_id_of_all (cut : Char → Bool) (s : List Char)
    (h : ∀ c ∈ s, cut c = false) : trimBy cut s = s := by
  have hdrop : ∀ t : List Char, (∀ c ∈ t, cut c = false) → t.dropWhile cut = t := by
    intro t ht
    cases t with
    | nil => rfl
    | cons c u => simp [List.dropWhile_cons, ht c (by simp)]
  unfold trimBy
  rw [hdrop s h, hdrop s.reverse fun c hc => h c (List.mem_reverse.mp hc),
    List.reverse_reverse]

/-- Joining a single content part inserts no separator. -/
theorem intercalate_single {α} (sep x : List α) :
    List.intercalate sep [x] = x := by
  simp [List.intercalate]

/-- The markdown built for an inline PNG payload, in match-ready form. -/
theorem mkImageMarkdown_cons (P : List Char) :
    mkImageMarkdown "image/png".toList P =
      '!' :: '[' :: ("image".toList ++
        (']' :: '(' :: (("data:image/png;base64,".toList ++ P) ++ [')']))) := rfl

/-- The regex tail match on the built markdown: alt `image`, the data URI as
the URL group, nothing after the match. -/
theorem matchTail_mk (P : List Char) (hP : ∀ c ∈ P, c ≠ ')') :
    matchTail ("image".toList ++
        (']' :: '(' :: (("data:image/png;base64,".toList ++ P) ++ [')']))) =
      some ("image".toList, "data:image/png;base64,".toList ++ P, []) := by
  obtain ⟨ht1, hd1⟩ := takeWhile_append_stop (fun c => decide (c ≠ ']'))
    "image".toList ('(' :: (("data:image/png;base64,".toList ++ P) ++ [')'])) ']'
    (by decide) (by decide)
  have hconc : ∀ c ∈ ("data:image/png;base64,".toList : List Char),
      (fun c => decide (c ≠ ')')) c = true := by decide
  obtain ⟨ht2, hd2⟩ := takeWhile_append_stop (fun c => decide (c ≠ ')'))
    ("data:image/png;base64,".toList ++ P) [] ')'
    (by
      intro c hc
      rcases List.mem_append.mp hc with hc | hc
      · exact hconc c hc
      · simpa using hP c hc)
    (by decide)
  unfold matchTail
  rw [hd1]
  simp only
  rw [ht2]
  rw [if_neg (by simp)]
  rw [hd2, ht1]
  rfl

/-- The regex matches the built markdown whole. -/
theorem tryMatchImage_mk (P : List Char) (hP : ∀ c ∈ P, c ≠ ')') :
    tryMatchImage (mkImageMarkdown "image/png".toList P) =
      some (mkImageMarkdown "image/png".toList P,
        "data:image/png;base64,".toList ++ P, []) := by
  rw [mkImageMarkdown_cons]
  simp only [tryMatchImage]
  rw [if_pos ⟨trivial, trivial⟩, matchTail_mk P hP]

/-- Parsing the produced data URI back recovers MIME type and payload. -/
theorem parseDataURI_roundtrip (P : List Char) :
    parseDataURI ("data:image/png;base64,".toList ++ P) =
      some { text := none, thought := false
             inlineData := some { mimeType := "image/png".toList, data := some P } } := by
  have hsw : strStartsWith ("data:image/png;base64,".toList ++ P) "data:".toList
      = true :=
    strStartsWith_append "data:".toList ("image/png;base64,".toList ++ P)
  have hsplit : splitFirstAt ',' ("data:image/png;base64,".toList ++ P) =
      some ("data:image/png;base64".toList, P) :=
    splitFirstAt_append ',' "data:image/png;base64".toList P (by decide)
  unfold parseDataURI
  rw [hsw]
  simp only [if_true]
  rw [hsplit]
  rfl

/-- Trimming the produced URL is the identity for payloads free of
whitespace and quote characters. -/
theorem trimUrl_data (P : List Char)
    (hP : ∀ c ∈ P, isGoSpace c = false ∧ (c == '"' || c == '\'') = false) :
    trimUrl ("data:image/png;base64,".toList ++ P) =
      "data:image/png;base64,".toList ++ P := by
  have hmem : ∀ cut : Char → Bool, (∀ c ∈ ("data:image/png;base64,".toList : List Char),
      cut c = false) → (∀ c ∈ P, cut c = false) →
      ∀ c ∈ ("data:image/png;base64,".toList ++ P), cut c = false := by
    intro cut h1 h2 c hc
    rcases List.mem_append.mp hc with hc | hc
    · exact h1 c hc
    · exact h2 c hc
  unfold trimUrl
  rw [trimBy_id_of_all _ _ (hmem _ (by decide) fun c hc => (hP c hc).1),
    trimBy_id_of_all _ _ (hmem _ (by decide) fun c hc => (hP c hc).2)]

/-- The per-match part for the produced data URI is the inline PNG part. -/
theorem urlToPart_data (matched P : List Char)
    (hP : ∀ c ∈ P, isGoSpace c = false ∧ (c == '"' || c == '\'') = false) :
    urlToPart matched ("data:image/png;base64,".toList ++ P) =
      { text := none, thought := false
        inlineData := some { mimeType := "image/png".toList, data := some P } } := by
  have hsw : strStartsWith ("data:image/png;base64,".toList ++ P) "data:".toList
      = true :=
    strStartsWith_append "data:".toList ("image/png;base64,".toList ++ P)
  unfold urlToPart
  simp only []
  rw [trimUrl_data P hP, hsw]
  simp only [if_true]
  rw [parseDataURI_roundtrip P]

/-- The regex matches somewhere in the built markdown. -/
theorem hasImageMatch_mk (P : List Char) (hP : ∀ c ∈ P, c ≠ ')') :
    hasImageMatch (mkImageMarkdown "image/png".toList P) = true := by
  have h := tryMatchImage_mk P hP
  rw [mkImageMarkdown_cons] at h ⊢
  unfold hasImageMatch
  rw [h]
  simp

/-- The scan turns the built markdown into exactly the inline PNG part. -/
theorem scanImages_mk (fuel : Nat) (P : List Char)
    (hP1 : ∀ c ∈ P, c ≠ ')')
    (hP2 : ∀ c ∈ P, isGoSpace c = false ∧ (c == '"' || c == '\'') = false) :
    scanImages (fuel + 1) (mkImageMarkdown "image/png".toList P) [] =
      [{ text := none, thought := false
         inlineData := some { mimeType := "image/png".toList, data := some P } }] := by
  have h := tryMatchImage_mk P hP1
  rw [mkImageMarkdown_cons] at h ⊢
  simp only [scanImages]
  rw [h]
  simp only [ne_eq, not_true_eq_false, if_false, List.nil_append]
  rw [urlToPart_data ('!' :: '[' :: ("image".toList ++
      (']' :: '(' :: (("data:image/png;base64,".toList ++ P) ++ [')']))))
    P hP2]
  simp [scanImages]

/-- The response transformer renders an inline PNG part as the Markdown data
URI carrying the same payload. -/
theorem geminiResponse_inline_png (P : List Char) :
    GeminiResponseToOpenAI [⟨some (.jfloat 0), "model".toList,
        [⟨none, false, some ⟨"image/png".toList, some P⟩⟩], []⟩] =
      [{ index := 0
         message :=
           { role := "assistant".toList
             content := mkImageMarkdown "image/png".toList P
             reasoningContent := none }
         finishReason := none }] := by
  have hmime : (("image/png".toList : List Char) = []) = False := by simp
  have hpre : strStartsWith "image/png".toList "image/".toList = true := rfl
  simp only [GeminiResponseToOpenAI, List.map, candidateToChoice, collectParts,
    List.foldl, hmime, if_false, hpre, if_true, intercalate_single]
  simp [mapFinishReason, intercalate_single]

/-- C7: a request message that is the Markdown image
`![x](data:image/png;base64,AAAA)` transforms to exactly one inline-binary
part with MIME type `image/png` and data `AAAA`; the MIME type defaults to
`image/png` when the data URI names none; non-data-URI image markdown stays
literal text; and for every payload `P` free of `)`, whitespace and quote
characters (all base64 payloads are), an inline `image/png` response part
with payload `P` renders as the Markdown data URI embedding `P`, and
extracting that markdown recovers the inline part with the same payload —
the image payload round-trips unchanged through the two directions. -/
theorem image_payload_roundtrip (P : List Char)
    (hP : ∀ c ∈ P, c ≠ ')' ∧ isGoSpace c = false ∧ (c == '"' || c == '\'') = false) :
    extractMarkdownImages "![x](data:image/png;base64,AAAA)".toList =
      [{ text := none, thought := false
         inlineData := some { mimeType := "image/png".toList
                              data := some "AAAA".toList } }] ∧
    GeminiResponseToOpenAI [⟨some (.jfloat 0), "model".toList,
        [⟨none, false, some ⟨"image/png".toList, some P⟩⟩], []⟩] =
      [{ index := 0
         message :=
           { role := "assistant".toList
             content := mkImageMarkdown "image/png".toList P
             reasoningContent := none }
         finishReason := none }] ∧
    extractMarkdownImages (mkImageMarkdown "image/png".toList P) =
      [{ text := none, thought := false
         inlineData := some { mimeType := "image/png".toList, data := some P } }] ∧
    extractMarkdownImages "![x](http://example.com/a.png)".toList =
      [textPart "![x](http://example.com/a.png)".toList] ∧
    parseDataURI "data:;base64,Q0FU".toList =
      some { text := none, thought := false
             inlineData := some { mimeType := "image/png".toList
                                  data := some "Q0FU".toList } } := by
  refine ⟨by decide, geminiResponse_inline_png P, ?_, by decide, by decide⟩
  unfold extractMarkdownImages
  rw [hasImageMatch_mk P fun c hc => (hP c hc).1]
  simp only [if_true]
  exact scanImages_mk _ P (fun c hc => (hP c hc).1) fun c hc => (hP c hc).2

/-- Witness for `image_payload_roundtrip` at the payload `AAAA`. -/
theorem image_payload_roundtrip_witness :
    extractMarkdownImages (mkImageMarkdown "image/png".toList "AAAA".toList) =
      [{ text := none, thought := false
         inlineData := some { mimeType := "image/png".toList
                              data := some "AAAA".toList } }] :=
  (image_payload_roundtrip "AAAA".toList (by decide)).2.2.1

end Gcli
